import Mathlib

/-!
Verification of the subsurface-summary core of the borehole analyzer
(`src/app.py`): the classification grouper, the geological-unit assigner,
the description synthesizer, the extent synthesizer and the summary-table
builder, shallowly embedded over rational depths and explicit string data.

Modelling conventions:
* pandas cell values are `Option String` (None = NaN); depths are `ℚ`.
* `Series.unique()` keeps first occurrences (`pdUnique`); `sorted(...)` and
  the key-sorted orders are modelled with Mathlib's stable `insertionSort`
  (pandas' `groupby(sort=True)` pre-sorts keys ascending; `sort_values`'
  small-array quicksort degenerates to a stable insertion sort, and
  Python's own `sorted` is stable by specification).
* Python's `f"...{n}"` decimal rendering of a counter is `natStr`;
  `"{x:.1f}"` is `fmtQ1` (exact half-to-even rounding of the rational).
-/

/-- Whitespace test used by the model of Python's `str.strip`/`str.split`. -/
def isWS (c : Char) : Bool := c.isWhitespace

/-- Drop trailing elements satisfying `p` (right-side strip). -/
def dropTrail (p : α → Bool) : List α → List α
  | [] => []
  | a :: l =>
    let r := dropTrail p l
    if r.isEmpty then (if p a then [] else [a]) else a :: r

/-- Model of Python's `str.strip()`: remove leading and trailing whitespace. -/
def stripStr (s : String) : String := ⟨dropTrail isWS (s.data.dropWhile isWS)⟩

/-- Model of Python's `str.upper()` (ASCII case mapping). -/
def upperStr (s : String) : String := ⟨s.data.map Char.toUpper⟩

/-- Model of Python's `str.lower()` (ASCII case mapping). -/
def lowerStr (s : String) : String := ⟨s.data.map Char.toLower⟩

/-- Model of Python's `sep.join(parts)`. -/
def sjoin (sep : String) : List String → String
  | [] => ""
  | a :: t => t.foldl (fun acc x => acc ++ sep ++ x) a

/-- One step of the whitespace splitter: fold from the right, carrying the
current word and the finished words to its right. -/
def wsStep (c : Char) (p : List Char × List (List Char)) :
    List Char × List (List Char) :=
  if isWS c then ([], if p.1.isEmpty then p.2 else p.1 :: p.2)
  else (c :: p.1, p.2)

/-- Model of Python's `str.split()` (split on whitespace runs, no empties). -/
def pySplitWS (s : String) : List String :=
  let r := s.data.foldr wsStep ([], [])
  ((if r.1.isEmpty then r.2 else r.1 :: r.2).map fun l => (⟨l⟩ : String))

/-- Model of `' '.join(s.split())`: collapse whitespace runs to single spaces. -/
def collapseWS (s : String) : String := sjoin " " (pySplitWS s)

/-- Model of `pandas.Series.unique()`: distinct values in first-seen order.
Structural recursion over the list with an accumulator of seen values. -/
def pdUniqueAux [DecidableEq α] : List α → List α → List α
  | [], _ => []
  | a :: t, seen =>
    if a ∈ seen then pdUniqueAux t seen else a :: pdUniqueAux t (a :: seen)

/-- Distinct values of a list in order of first occurrence. -/
def pdUnique [DecidableEq α] (l : List α) : List α := pdUniqueAux l []

/-- Fuelled decimal digit rendering (most significant digit first). -/
def natStrF : ℕ → ℕ → List Char
  | 0, _ => []
  | fuel + 1, n =>
    if n < 10 then [Nat.digitChar n]
    else natStrF fuel (n / 10) ++ [Nat.digitChar (n % 10)]

/-- Decimal rendering of a natural number, as Python's `f"{n}"` produces. -/
def natStr (n : ℕ) : String := ⟨natStrF (n + 1) n⟩

/-- Decimal decoding, used to prove `natStr` injective. -/
def decDigits (l : List Char) : ℕ :=
  l.foldl (fun a c => a * 10 + (c.toNat - 48)) 0

/-- Minimum of a list of rationals (`Series.min()`); `0` on the empty list,
which the pipeline never queries. -/
def qmin (l : List ℚ) : ℚ := l.minimum.untop' 0

/-- Maximum of a list of rationals (`Series.max()`); `0` on the empty list. -/
def qmax (l : List ℚ) : ℚ := l.maximum.unbot' 0

/-- Mean of a list of rationals (`Series.mean()`); `0` on the empty list. -/
def qmean (l : List ℚ) : ℚ := l.sum / l.length

/-- Round a rational to an integer, ties to the even integer. -/
def roundHalfEven (x : ℚ) : ℤ :=
  let f := x.floor
  if x - f < 1/2 then f
  else if 1/2 < x - f then f + 1
  else if f % 2 = 0 then f else f + 1

/-- Model of Python's `f"{x:.1f}"` on the exact rational value. -/
def fmtQ1 (q : ℚ) : String :=
  let n := roundHalfEven (q * 10)
  (if n < 0 then "-" else "") ++ natStr (n.natAbs / 10) ++ "." ++
    natStr (n.natAbs % 10)

/-- One soil-layer row of the validated GEOLOGY table.  Required columns are
`POINT_ID`, `TOP`, `BASE`, `Legend`, `Origin1`, `Color`; the remaining
descriptive attributes are optional columns (see `DF`). -/
structure Layer where
  point_id : String
  top : ℚ
  base : ℚ
  legend : Option String
  origin1 : Option String
  color : Option String
  primaryName : Option String
  primaryNameQualifier : Option String
  plasticityMin : Option String
  plasticityMax : Option String
  plasticityJoiner : Option String
  remarks : Option String
deriving DecidableEq, Repr

/-- A dataframe: rows plus presence flags for the optional columns the
description synthesizer probes with `'col' in unit_df.columns`. -/
structure DF where
  rows : List Layer
  hasPrimaryName : Bool
  hasPrimaryNameQualifier : Bool
  hasPlasticityMin : Bool
  hasPlasticityMax : Bool
  hasPlasticityJoiner : Bool
  hasRemarks : Bool
deriving DecidableEq, Repr

/-- `classify_soil_group` from `src/app.py`: collapse a raw classification
code to its group label; `NaN → 'Unknown'`; codes are stripped before the
case-sensitive table lookup; unmatched codes pass through stripped. -/
def classify_soil_group (legend : Option String) : String :=
  match legend with
  | none => "Unknown"
  | some s =>
    let t := stripStr s
    if t = "CL" ∨ t = "CL-CI" then "CL_Group"
    else if t = "CI" ∨ t = "CI-CH" then "CI_Group"
    else if t = "CH" then "CH_Group"
    else if t = "GW" ∨ t = "GP" ∨ t = "GM" ∨ t = "GC" then "Gravel_Group"
    else if t = "SW" ∨ t = "SP" ∨ t = "SM" ∨ t = "SC" then "Sand_Group"
    else if t = "ML" ∨ t = "MH" then "Silt_Group"
    else t

/-! ### Unit assigner (`assign_geological_units`) -/

/-- `AvgDepth` column: `(TOP + BASE) / 2`. -/
def avg_depth (l : Layer) : ℚ := (l.top + l.base) / 2

/-- `GroupKey` column: `Origin1.fillna('Unknown') + '_' + ClassGroup`. -/
def group_key (l : Layer) : String :=
  l.origin1.getD "Unknown" ++ "_" ++ classify_soil_group l.legend

/-- Mean `AvgDepth` over the rows carrying one `GroupKey`
(`df.groupby('GroupKey')['AvgDepth'].mean()`). -/
def key_mean (rows : List Layer) (k : String) : ℚ :=
  qmean ((rows.filter fun l => group_key l = k).map avg_depth)

/-- Distinct `GroupKey`s in assignment order: `groupby(sort=True)` yields
the keys ascending, then `sort_values()` orders them by mean depth (modelled
stable, see the header note). -/
def sorted_group_keys (rows : List Layer) : List String :=
  List.insertionSort (fun a b => key_mean rows a ≤ key_mean rows b)
    (List.insertionSort (fun a b : String => a ≤ b)
      (pdUnique (rows.map group_key)))

/-- `group_key.split('_')[0]`: the text before the first underscore. -/
def key_origin (k : String) : String := ⟨k.data.takeWhile (fun c => c ≠ '_')⟩

/-- The origin → unit-code letter table of `assign_geological_units`. -/
def origin_pfx (o : String) : String :=
  if o = "Fill" then "F"
  else if o = "Residual" then "R"
  else if o = "Alluvium" then "AL"
  else if o = "Colluvium" then "CO"
  else "U"

/-- Walk the sorted keys, maintaining the per-origin `origin_counters`
(increment before use), and emit `(GroupKey, unit_code)` pairs in order. -/
def assign_codes : List String → (String → ℕ) → List (String × String)
  | [], _ => []
  | k :: ks, ctr =>
    let o := key_origin k
    let n := ctr o + 1
    (k, origin_pfx o ++ natStr n) ::
      assign_codes ks (fun x => if x = o then n else ctr x)

/-- The `unit_assignments` mapping of `assign_geological_units`. -/
def unit_assignments (rows : List Layer) : List (String × String) :=
  assign_codes (sorted_group_keys rows) (fun _ => 0)

/-- `assign_geological_units`: the rows with their added `Unit` column
(`df['GroupKey'].map(unit_assignments)`; every `GroupKey` is a key of the
mapping, so the `""` default is never used). -/
def assign_geological_units (rows : List Layer) : List (Layer × String) :=
  rows.map fun l =>
    (l, ((unit_assignments rows).lookup (group_key l)).getD "")

/-! ### Description synthesizer (`generate_unit_description`) -/

/-- Model of `pandas.Series.mode()`: the non-null values of maximal
frequency; pandas returns the modes sorted ascending. -/
def series_mode (col : List (Option String)) : List String :=
  let vals := col.filterMap id
  let distinct := pdUnique vals
  let maxc := (distinct.map fun v => vals.count v).foldr max 0
  List.insertionSort (fun a b : String => a ≤ b)
    (distinct.filter fun v => vals.count v = maxc)

/-- `origin`: `unit_df['Origin1'].mode()[0]`, defaulting to `'Unknown'`. -/
def description_origin (df : DF) : String :=
  (series_mode (df.rows.map (·.origin1))).headD "Unknown"

/-- `primary_material`: mode of `PrimaryName` upper-cased, default `'SOIL'`. -/
def description_material (df : DF) : String :=
  if df.hasPrimaryName then
    upperStr ((series_mode (df.rows.map (·.primaryName))).headD "SOIL")
  else "SOIL"

/-- `class_str`: distinct non-null `Legend` values sorted ascending,
parenthesised and joined with `' to '`. -/
def description_class (df : DF) : String :=
  let cs := List.insertionSort (fun a b : String => a ≤ b)
    (pdUnique (df.rows.filterMap (·.legend)))
  match cs with
  | [] => ""
  | [c] => "(" ++ c ++ ")"
  | _ => "(" ++ sjoin " to " cs ++ ")"

/-- First distinct non-null value of an optional column
(`unit_df['col'].dropna().unique()[0]`); `none` when the column is absent
or all-null. -/
def first_val (present : Bool) (col : List (Option String)) : Option String :=
  if present then (pdUnique (col.filterMap id)).head? else none

/-- The `plasticity_parts` list collected by `generate_unit_description`:
the first `PlasticityMin` value if any; `'to'` if the first
`PlasticityJoiner` value is `'to'`; the first `PlasticityMax` value if
`'to'` is already among the parts. -/
def plasticity_parts (df : DF) : List String :=
  let p1 :=
    match first_val df.hasPlasticityMin (df.rows.map (·.plasticityMin)) with
    | some v => [v]
    | none => []
  let p2 := p1 ++
    (match first_val df.hasPlasticityJoiner
        (df.rows.map (·.plasticityJoiner)) with
    | some j => if j = "to" then ["to"] else []
    | none => [])
  p2 ++
    (match first_val df.hasPlasticityMax (df.rows.map (·.plasticityMax)) with
    | some v => if "to" ∈ p2 then [v] else []
    | none => [])

/-- `plasticity_str`: the parts joined with spaces plus `' plasticity'`,
or `''` when no part was collected. -/
def plasticity_descriptor (df : DF) : String :=
  if plasticity_parts df = [] then ""
  else sjoin " " (plasticity_parts df) ++ " plasticity"

/-- `color_str`: first/last of the distinct non-null colors in first-seen
order. -/
def description_color (df : DF) : String :=
  match pdUnique (df.rows.filterMap (·.color)) with
  | [] => ""
  | [c] => c
  | c :: rest => c ++ " to " ++ rest.getLastD c

/-- `generate_unit_description` from `src/app.py`.  The `'‚Äì'` literal
reproduces the separator characters of the source file. -/
def generate_unit_description (df : DF) : String :=
  if df.rows.isEmpty then "" else
  let parts := [upperStr (description_origin df) ++ " ‚Äì",
    description_material df]
  let parts := parts ++
    (if description_class df = "" then [] else [description_class df ++ ":"])
  let desc_parts :=
    (if plasticity_descriptor df = "" then [] else [plasticity_descriptor df])
    ++ (if description_color df = "" then [] else [description_color df])
    ++ (match first_val df.hasPrimaryNameQualifier
          (df.rows.map (·.primaryNameQualifier)) with
       | some q => [lowerStr q]
       | none => [])
  let parts := parts ++
    (if desc_parts.isEmpty then [] else [sjoin ", " desc_parts])
  let parts := parts ++
    (match first_val df.hasRemarks (df.rows.map (·.remarks)) with
    | some r => [r]
    | none => [])
  collapseWS (stripStr (sjoin " " parts))

/-! ### Extent synthesizer (`generate_extent_statement`) -/

/-- `sorted(unit_df['POINT_ID'].unique())`. -/
def extent_bhs (u : List Layer) : List String :=
  List.insertionSort (fun a b : String => a ≤ b)
    (pdUnique (u.map (·.point_id)))

/-- Per-borehole minimum `TOP` values, in sorted-borehole order. -/
def extent_tops (u : List Layer) : List ℚ :=
  (u |> extent_bhs).map fun bh =>
    qmin ((u.filter fun l => l.point_id = bh).map (·.top))

/-- Per-borehole maximum `BASE` values, in sorted-borehole order. -/
def extent_bases (u : List Layer) : List ℚ :=
  (u |> extent_bhs).map fun bh =>
    qmax ((u.filter fun l => l.point_id = bh).map (·.base))

/-- `top_var = summary_df['TOP'].max() - summary_df['TOP'].min()`. -/
def extent_top_var (u : List Layer) : ℚ :=
  qmax (extent_tops u) - qmin (extent_tops u)

/-- `base_var = summary_df['BASE'].max() - summary_df['BASE'].min()`. -/
def extent_base_var (u : List Layer) : ℚ :=
  qmax (extent_bases u) - qmin (extent_bases u)

/-- The uniform/variable branch test of `generate_extent_statement`:
`top_var < 0.2 and base_var < 0.3`. -/
def extent_uniform (u : List Layer) : Bool :=
  decide (extent_top_var u < 1/5 ∧ extent_base_var u < 3/10)

/-- The uniform-occurrence sentence of `generate_extent_statement`. -/
def extent_uniform_text (u : List Layer) : String :=
  let bh_list := sjoin ", " (extent_bhs u)
  let avg_top := qmean (extent_tops u)
  let avg_base := qmean (extent_bases u)
  if avg_top < 1/10 then
    "Encountered from surface to approximately " ++ fmtQ1 avg_base ++
      " mbgl in " ++ bh_list ++ "."
  else
    "Encountered from approximately " ++ fmtQ1 avg_top ++ " to " ++
      fmtQ1 avg_base ++ " mbgl in " ++ bh_list ++ "."

/-- The variable-occurrence sentence of `generate_extent_statement`. -/
def extent_variable_text (u : List Layer) : String :=
  let bh_list := sjoin ", " (extent_bhs u)
  let depth_desc :=
    if qmin (extent_tops u) < 1/10 then
      "from surface to " ++ fmtQ1 (qmin (extent_bases u)) ++ "-" ++
        fmtQ1 (qmax (extent_bases u)) ++ " mbgl"
    else
      "from " ++ fmtQ1 (qmin (extent_tops u)) ++ " to " ++
        fmtQ1 (qmax (extent_bases u)) ++ " mbgl"
  "Encountered " ++ depth_desc ++ " in " ++ bh_list ++
    ". Depth varies across boreholes."

/-- `generate_extent_statement` from `src/app.py`. -/
def generate_extent_statement (u : List Layer) : String :=
  if u.isEmpty then ""
  else if extent_uniform u then extent_uniform_text u
  else extent_variable_text u

/-! ### Summary table builder (`create_subsurface_summary_table`) -/

/-- The summary sort key: the unit's minimum `AvgDepth` among its member
layers. -/
def min_avg_depth (dfu : List (Layer × String)) (code : String) : ℚ :=
  qmin ((dfu.filter fun p => p.2 = code).map fun p => avg_depth p.1)

/-- `create_subsurface_summary_table` from `src/app.py`: one
`(Unit, description ++ "\n\n" ++ extent)` row per distinct unit code,
ordered ascending by `min_avg_depth`. -/
def create_subsurface_summary_table (df : DF) : List (String × String) :=
  let dfu := assign_geological_units df.rows
  let codes := List.insertionSort
    (fun a b => min_avg_depth dfu a ≤ min_avg_depth dfu b)
    (pdUnique (dfu.map (·.2)))
  codes.map fun c =>
    let sub := (dfu.filter fun p => p.2 = c).map (·.1)
    (c, generate_unit_description { df with rows := sub } ++ "\n\n" ++
      generate_extent_statement sub)

/-! ### Spec-side definitions (the claims' own wording) -/

/-- The fixed code → group table as the spec lists it (§4.1). -/
def soil_group_table : List (List String × String) :=
  [(["CL", "CL-CI"], "CL_Group"),
   (["CI", "CI-CH"], "CI_Group"),
   (["CH"], "CH_Group"),
   (["GW", "GP", "GM", "GC"], "Gravel_Group"),
   (["SW", "SP", "SM", "SC"], "Sand_Group"),
   (["ML", "MH"], "Silt_Group")]

/-- The grouper as the spec words it: null → `Unknown`; otherwise trim the
code and look it up in the fixed table; unmatched codes pass through. -/
def group_spec (code : Option String) : String :=
  match code with
  | none => "Unknown"
  | some s =>
    let t := stripStr s
    match soil_group_table.find? (fun e => decide (t ∈ e.1)) with
    | some e => e.2
    | none => t

/-- The origin → prefix mapping as claim C8 states it, applied to the
layer's (defaulted) origin value. -/
def origin_letter_spec (origin : Option String) : String :=
  match origin.getD "Unknown" with
  | "Fill" => "F"
  | "Residual" => "R"
  | "Alluvium" => "AL"
  | "Colluvium" => "CO"
  | _ => "U"

/-- Claim C2's `top_spread`: spread of the per-borehole minimum top depths,
over the unit's boreholes (in first-appearance order). -/
def top_spread_spec (u : List Layer) : ℚ :=
  let tops := (pdUnique (u.map (·.point_id))).map fun bh =>
    qmin ((u.filter fun l => l.point_id = bh).map (·.top))
  qmax tops - qmin tops

/-- Claim C2's `base_spread`: spread of the per-borehole maximum base
depths. -/
def base_spread_spec (u : List Layer) : ℚ :=
  let bases := (pdUnique (u.map (·.point_id))).map fun bh =>
    qmax ((u.filter fun l => l.point_id = bh).map (·.base))
  qmax bases - qmin bases

/-- The mode with first-encountered tie-break, as claim C6 states it. -/
def mode_first_seen (col : List (Option String)) : Option String :=
  let vals := col.filterMap id
  let distinct := pdUnique vals
  let maxc := (distinct.map fun v => vals.count v).foldr max 0
  (distinct.filter fun v => vals.count v = maxc).head?

/-- The assignment order claim C5 states: a stable sort by mean depth over
the keys in first-discovery order (ties keep first-discovery order). -/
def sorted_group_keys_first_seen (rows : List Layer) : List String :=
  List.insertionSort (fun a b => key_mean rows a ≤ key_mean rows b)
    (pdUnique (rows.map group_key))

/-- The non-null `PlasticityMin` values visible to the synthesizer
(empty when the column is absent). -/
def plasticity_min_vals (df : DF) : List String :=
  if df.hasPlasticityMin then df.rows.filterMap (·.plasticityMin) else []

/-! ### Concrete example inputs for the counterexamples and witnesses -/

/-- A minimal required-columns-only layer. -/
def mkLayer (bh : String) (t b : ℚ) (leg orig : Option String) : Layer :=
  ⟨bh, t, b, leg, orig, none, none, none, none, none, none, none⟩

/-- Two layers whose origins (`Marine`, `Topsoil`) both fall to the `U`
catch-all prefix. -/
def exRowsC1 : List Layer :=
  [mkLayer "BH01" 0 2 (some "CH") (some "Marine"),
   mkLayer "BH02" 0 2 (some "CH") (some "Topsoil")]

/-- Two same-origin layers with distinct classification groups and equal
mean depths: `Fill_Sand_Group` is discovered first, `Fill_CH_Group` is
lexically smaller. -/
def exRowsC5 : List Layer :=
  [mkLayer "BH01" 0 2 (some "SW") (some "Fill"),
   mkLayer "BH02" 0 2 (some "CH") (some "Fill")]

/-- An origin column with a frequency tie: `Zeta` first-encountered,
`Alpha` lexically smaller. -/
def exColC6 : List (Option String) := [some "Zeta", some "Alpha"]

/-- A dataframe whose two layers tie on origin frequency. -/
def exDFC6 : DF :=
  ⟨[mkLayer "BH01" 0 2 none (some "Zeta"),
    mkLayer "BH02" 0 2 none (some "Alpha")],
   false, false, false, false, false, false⟩

/-- A dataframe with a `to` plasticity joiner and a maximum but no
minimum value. -/
def exDFC7 : DF :=
  ⟨[{ point_id := "BH01", top := 0, base := 2, legend := none,
      origin1 := none, color := none, primaryName := none,
      primaryNameQualifier := none, plasticityMin := none,
      plasticityMax := some "high", plasticityJoiner := some "to",
      remarks := none }],
   false, false, true, true, true, false⟩

/-- A single layer whose origin contains an underscore. -/
def exRowsC8 : List Layer := [mkLayer "BH01" 0 2 (some "CH") (some "Fill_Old")]

/-- The empty dataframe. -/
def exDFEmpty : DF := ⟨[], false, false, false, false, false, false⟩

/-- A two-borehole unit with clearly variable tops (spread `1 ≥ 0.2`). -/
def exRowsC2 : List Layer :=
  [mkLayer "BH01" 0 2 (some "CH") (some "Fill"),
   mkLayer "BH02" 1 3 (some "CH") (some "Fill")]

/-! ### Support lemmas: decimal rendering -/

theorem digitChar_toNat (n : ℕ) (h : n < 10) :
    (Nat.digitChar n).toNat = 48 + n := by
  interval_cases n <;> rfl

theorem foldl_natStrF (fuel : ℕ) : ∀ n acc, n < 10 ^ fuel →
    (natStrF fuel n).foldl (fun a c => a * 10 + (c.toNat - 48)) acc
      = acc * 10 ^ (natStrF fuel n).length + n := by
  induction fuel with
  | zero =>
    intro n acc h
    interval_cases n
    simp [natStrF]
  | succ fuel ih =>
    intro n acc h
    by_cases h10 : n < 10
    · simp [natStrF, h10, digitChar_toNat n h10]
    · have hdiv : n / 10 < 10 ^ fuel := by
        rw [Nat.div_lt_iff_lt_mul (by norm_num)]
        calc n < 10 ^ (fuel + 1) := h
        _ = 10 ^ fuel * 10 := by rw [pow_succ]
      have hmod : n % 10 < 10 := Nat.mod_lt _ (by norm_num)
      rw [natStrF, if_neg h10, List.foldl_append, ih (n / 10) acc hdiv]
      simp only [List.foldl_cons, List.foldl_nil, List.length_append,
        List.length_singleton, digitChar_toNat (n % 10) hmod]
      have hnm := Nat.div_add_mod n 10
      generalize (natStrF fuel (n / 10)).length = L
      rw [pow_succ]
      have : 48 + n % 10 - 48 = n % 10 := by omega
      rw [this]
      ring_nf
      omega

theorem decDigits_natStr (n : ℕ) : decDigits (natStr n).data = n := by
  have h1 : n < 10 ^ (n + 1) := by
    calc n < 10 ^ n := Nat.lt_pow_self (by norm_num) n
    _ ≤ 10 ^ (n + 1) := Nat.pow_le_pow_right (by norm_num) (Nat.le_succ n)
  have := foldl_natStrF (n + 1) n 0 h1
  simpa [decDigits, natStr] using this

theorem natStr_injective : Function.Injective natStr := by
  intro a b h
  have : decDigits (natStr a).data = decDigits (natStr b).data := by rw [h]
  rwa [decDigits_natStr, decDigits_natStr] at this

theorem string_append_right_inj (s t1 t2 : String) :
    s ++ t1 = s ++ t2 → t1 = t2 := by
  intro h
  have hd : s.data ++ t1.data = s.data ++ t2.data := congrArg String.data h
  exact String.ext (List.append_cancel_left hd)

/-! ### Support lemmas: stripping -/

theorem dropWhile_idem (p : α → Bool) (l : List α) :
    (l.dropWhile p).dropWhile p = l.dropWhile p := by
  induction l with
  | nil => rfl
  | cons a t ih =>
    by_cases h : p a
    · simp [List.dropWhile_cons, h, ih]
    · simp [List.dropWhile_cons, h]

theorem length_dropWhile_le (p : α → Bool) (l : List α) :
    (l.dropWhile p).length ≤ l.length := by
  induction l with
  | nil => simp
  | cons a t ih =>
    by_cases h : p a
    · simp only [List.dropWhile_cons, if_pos h, List.length_cons]
      omega
    · simp [List.dropWhile_cons, h]

theorem dropTrail_idem (p : α → Bool) (l : List α) :
    dropTrail p (dropTrail p l) = dropTrail p l := by
  induction l with
  | nil => rfl
  | cons a t ih =>
    simp only [dropTrail]
    by_cases hr : (dropTrail p t).isEmpty
    · simp only [hr, if_true]
      by_cases hp : p a
      · simp [hp, dropTrail]
      · simp [hp, dropTrail]
    · simp only [hr, if_false, dropTrail, ih]

theorem dropWhile_dropTrail (p : α → Bool) (l : List α)
    (hl : l.dropWhile p = l) :
    (dropTrail p l).dropWhile p = dropTrail p l := by
  cases l with
  | nil => rfl
  | cons a t =>
    have hpa : p a = false := by
      by_contra hpa
      simp only [Bool.not_eq_false] at hpa
      rw [List.dropWhile_cons, if_pos hpa] at hl
      have h1 := length_dropWhile_le p t
      have h2 := congrArg List.length hl
      simp only [List.length_cons] at h2
      omega
    simp only [dropTrail]
    by_cases hr : (dropTrail p t).isEmpty
    · simp only [hr, if_true]
      simp [List.dropWhile_cons, hpa]
    · simp [List.dropWhile_cons, hpa, hr]

theorem stripStr_idem (s : String) : stripStr (stripStr s) = stripStr s := by
  unfold stripStr
  have hm : ((s.data.dropWhile isWS).dropWhile isWS) = s.data.dropWhile isWS :=
    dropWhile_idem isWS s.data
  have hdw :
      (dropTrail isWS (s.data.dropWhile isWS)).dropWhile isWS
        = dropTrail isWS (s.data.dropWhile isWS) :=
    dropWhile_dropTrail isWS _ hm
  show (⟨dropTrail isWS ((dropTrail isWS (s.data.dropWhile isWS)).dropWhile isWS)⟩ : String) = _
  rw [hdw, dropTrail_idem]

/-! ### Support lemmas: first-seen distinct values -/

theorem mem_pdUniqueAux [DecidableEq α] (x : α) :
    ∀ (l seen : List α), x ∈ pdUniqueAux l seen ↔ x ∈ l ∧ x ∉ seen := by
  intro l
  induction l with
  | nil => intro seen; simp [pdUniqueAux]
  | cons a t ih =>
    intro seen
    by_cases h : a ∈ seen
    · rw [pdUniqueAux, if_pos h, ih]
      simp only [List.mem_cons]
      constructor
      · rintro ⟨hx, hs⟩
        exact ⟨Or.inr hx, hs⟩
      · rintro ⟨rfl | hx, hs⟩
        · exact absurd h hs
        · exact ⟨hx, hs⟩
    · rw [pdUniqueAux, if_neg h]
      simp only [List.mem_cons, ih]
      constructor
      · rintro (rfl | ⟨hx, hs⟩)
        · exact ⟨Or.inl rfl, h⟩
        · exact ⟨Or.inr hx, fun hxs => hs (Or.inr hxs)⟩
      · rintro ⟨rfl | hx, hs⟩
        · exact Or.inl rfl
        · by_cases hxa : x = a
          · exact Or.inl hxa
          · exact Or.inr ⟨hx, fun hc => hc.elim hxa hs⟩

theorem mem_pdUnique [DecidableEq α] (x : α) (l : List α) :
    x ∈ pdUnique l ↔ x ∈ l := by
  simp [pdUnique, mem_pdUniqueAux]

theorem pdUnique_eq_nil [DecidableEq α] (l : List α) :
    pdUnique l = [] ↔ l = [] := by
  cases l with
  | nil => simp [pdUnique, pdUniqueAux]
  | cons a t =>
    rw [pdUnique, pdUniqueAux, if_neg (List.not_mem_nil a)]
    simp

/-! ### Support lemmas: extrema under permutation -/

theorem minimum_perm {l l' : List ℚ} (h : l.Perm l') : l.minimum = l'.minimum := by
  apply le_antisymm
  · exact List.le_minimum_of_forall_le fun a ha =>
      List.minimum_le_of_mem' (h.mem_iff.mpr ha)
  · exact List.le_minimum_of_forall_le fun a ha =>
      List.minimum_le_of_mem' (h.mem_iff.mp ha)

theorem maximum_perm {l l' : List ℚ} (h : l.Perm l') : l.maximum = l'.maximum := by
  apply le_antisymm
  · exact List.maximum_le_of_forall_le fun a ha =>
      List.le_maximum_of_mem' (h.mem_iff.mp ha)
  · exact List.maximum_le_of_forall_le fun a ha =>
      List.le_maximum_of_mem' (h.mem_iff.mpr ha)

theorem qmin_perm {l l' : List ℚ} (h : l.Perm l') : qmin l = qmin l' := by
  rw [qmin, qmin, minimum_perm h]

theorem qmax_perm {l l' : List ℚ} (h : l.Perm l') : qmax l = qmax l' := by
  rw [qmax, qmax, maximum_perm h]

/-! ### Support lemmas: `foldr max` over naturals -/

theorem le_foldr_max (l : List ℕ) : ∀ x ∈ l, x ≤ l.foldr max 0 := by
  induction l with
  | nil => simp
  | cons a t ih =>
    intro x hx
    rcases List.mem_cons.mp hx with rfl | hx
    · exact le_max_left _ _
    · exact le_trans (ih x hx) (le_max_right _ _)

theorem foldr_max_mem (l : List ℕ) (h : l ≠ []) : l.foldr max 0 ∈ l := by
  induction l with
  | nil => exact absurd rfl h
  | cons a t ih =>
    cases t with
    | nil => simp
    | cons b t' =>
      rw [List.foldr_cons]
      rcases max_choice a ((b :: t').foldr max 0) with hm | hm
      · rw [hm]; exact List.mem_cons_self _ _
      · rw [hm]; exact List.mem_cons_of_mem _ (ih (by simp))

/-! ### Support lemmas: the grouper's case chain vs. the spec's table -/

theorem classify_chain_eq_table (t : String) :
    (if t = "CL" ∨ t = "CL-CI" then "CL_Group"
     else if t = "CI" ∨ t = "CI-CH" then "CI_Group"
     else if t = "CH" then "CH_Group"
     else if t = "GW" ∨ t = "GP" ∨ t = "GM" ∨ t = "GC" then "Gravel_Group"
     else if t = "SW" ∨ t = "SP" ∨ t = "SM" ∨ t = "SC" then "Sand_Group"
     else if t = "ML" ∨ t = "MH" then "Silt_Group"
     else t)
    = (match soil_group_table.find? (fun e => decide (t ∈ e.1)) with
       | some e => e.2
       | none => t) := by
  split_ifs with h1 h2 h3 h4 h5 h6
  · rcases h1 with h | h <;> rw [h] <;> rfl
  · rcases h2 with h | h <;> rw [h] <;> rfl
  · rw [h3]; rfl
  · rcases h4 with h | h | h | h <;> rw [h] <;> rfl
  · rcases h5 with h | h | h | h <;> rw [h] <;> rfl
  · rcases h6 with h | h <;> rw [h] <;> rfl
  · have hnone : soil_group_table.find? (fun e => decide (t ∈ e.1)) = none := by
      rw [List.find?_eq_none]
      intro e he
      fin_cases he <;> simp_all
    rw [hnone]

theorem classify_cases (s : String) :
    classify_soil_group (some s) ∈
      (["CL_Group", "CI_Group", "CH_Group", "Gravel_Group", "Sand_Group",
        "Silt_Group"] : List String) ∨
    (classify_soil_group (some s) = stripStr s ∧
      ¬(stripStr s = "CL" ∨ stripStr s = "CL-CI") ∧
      ¬(stripStr s = "CI" ∨ stripStr s = "CI-CH") ∧
      ¬(stripStr s = "CH") ∧
      ¬(stripStr s = "GW" ∨ stripStr s = "GP" ∨ stripStr s = "GM" ∨
         stripStr s = "GC") ∧
      ¬(stripStr s = "SW" ∨ stripStr s = "SP" ∨ stripStr s = "SM" ∨
         stripStr s = "SC") ∧
      ¬(stripStr s = "ML" ∨ stripStr s = "MH")) := by
  simp only [classify_soil_group]
  split_ifs with h1 h2 h3 h4 h5 h6
  · exact Or.inl (by simp)
  · exact Or.inl (by simp)
  · exact Or.inl (by simp)
  · exact Or.inl (by simp)
  · exact Or.inl (by simp)
  · exact Or.inl (by simp)
  · exact Or.inr ⟨rfl, h1, h2, h3, h4, h5, h6⟩

theorem classify_passthrough (t : String)
    (ht : stripStr t = t)
    (h1 : ¬(t = "CL" ∨ t = "CL-CI"))
    (h2 : ¬(t = "CI" ∨ t = "CI-CH"))
    (h3 : ¬(t = "CH"))
    (h4 : ¬(t = "GW" ∨ t = "GP" ∨ t = "GM" ∨ t = "GC"))
    (h5 : ¬(t = "SW" ∨ t = "SP" ∨ t = "SM" ∨ t = "SC"))
    (h6 : ¬(t = "ML" ∨ t = "MH")) :
    classify_soil_group (some t) = t := by
  simp only [classify_soil_group, ht]
  rw [if_neg h1, if_neg h2, if_neg h3, if_neg h4, if_neg h5, if_neg h6]

/-! ### Support lemmas: stability of the mean-depth sort -/

theorem pairwise_orderedInsert_lex (m : String → ℚ) (a : String)
    (M : List String)
    (hp : List.Pairwise
      (fun x y => m x < m y ∨ (m x = m y ∧ x ≤ y)) M)
    (hab : ∀ b ∈ M, a ≤ b) :
    List.Pairwise (fun x y => m x < m y ∨ (m x = m y ∧ x ≤ y))
      (List.orderedInsert (fun x y => m x ≤ m y) a M) := by
  induction M with
  | nil => simp [List.orderedInsert]
  | cons b M ih =>
    rw [List.orderedInsert]
    rcases List.pairwise_cons.mp hp with ⟨hbM, hpM⟩
    by_cases hm : m a ≤ m b
    · rw [if_pos hm]
      refine List.Pairwise.cons ?_ hp
      intro c hc
      rcases List.mem_cons.mp hc with rfl | hc
      · rcases eq_or_lt_of_le hm with h | h
        · exact Or.inr ⟨h, hab _ (List.mem_cons_self _ _)⟩
        · exact Or.inl h
      · rcases hbM c hc with h | ⟨heq, _⟩
        · exact Or.inl (lt_of_le_of_lt hm h)
        · rcases eq_or_lt_of_le hm with h2 | h2
          · exact Or.inr ⟨h2.trans heq, hab _ (List.mem_cons_of_mem _ hc)⟩
          · exact Or.inl (lt_of_lt_of_le h2 (le_of_eq heq))
    · rw [if_neg hm]
      have hba : m b < m a := lt_of_not_ge hm
      refine List.Pairwise.cons ?_
        (ih hpM fun b' hb' => hab b' (List.mem_cons_of_mem _ hb'))
      intro c hc
      rcases (List.mem_orderedInsert _).mp hc with rfl | hc2
      · exact Or.inl hba
      · exact hbM c hc2

theorem pairwise_insertionSort_lex (m : String → ℚ) (L : List String)
    (hL : List.Sorted (fun a b : String => a ≤ b) L) :
    List.Pairwise (fun x y => m x < m y ∨ (m x = m y ∧ x ≤ y))
      (List.insertionSort (fun x y => m x ≤ m y) L) := by
  induction L with
  | nil => simp [List.insertionSort]
  | cons a L ih =>
    rw [List.insertionSort]
    rcases List.sorted_cons.mp hL with ⟨haL, hL2⟩
    refine pairwise_orderedInsert_lex m a _ (ih hL2) fun b hb => ?_
    exact haL b ((List.perm_insertionSort _ _).subset hb)

/-! ### Support lemmas: head of the sorted mode list -/

theorem head_insertionSort_le (cands : List String) (v : String) :
    (List.insertionSort (fun a b : String => a ≤ b) cands).head? = some v ↔
      (v ∈ cands ∧ ∀ w ∈ cands, v ≤ w) := by
  constructor
  · intro h
    cases hs : List.insertionSort (fun a b : String => a ≤ b) cands with
    | nil => rw [hs] at h; cases h
    | cons h0 rest =>
      rw [hs] at h
      have hv0 : h0 = v := by simpa using h
      subst hv0
      have hsorted := List.sorted_insertionSort
        (fun a b : String => a ≤ b) cands
      have hperm := List.perm_insertionSort
        (fun a b : String => a ≤ b) cands
      rw [hs] at hsorted hperm
      refine ⟨hperm.subset (List.mem_cons_self _ _), fun w hw => ?_⟩
      rcases List.mem_cons.mp (hperm.mem_iff.mpr hw) with rfl | hwr
      · exact le_refl _
      · exact List.rel_of_sorted_cons hsorted w hwr
  · rintro ⟨hv, hall⟩
    cases hs : List.insertionSort (fun a b : String => a ≤ b) cands with
    | nil =>
      exfalso
      have hperm := List.perm_insertionSort
        (fun a b : String => a ≤ b) cands
      rw [hs] at hperm
      exact absurd (hperm.symm.subset hv) (List.not_mem_nil v)
    | cons h0 rest =>
      have hsorted := List.sorted_insertionSort
        (fun a b : String => a ≤ b) cands
      have hperm := List.perm_insertionSort
        (fun a b : String => a ≤ b) cands
      rw [hs] at hsorted hperm
      have h0mem : h0 ∈ cands := hperm.subset (List.mem_cons_self _ _)
      have h1 : h0 ≤ v := by
        rcases List.mem_cons.mp (hperm.mem_iff.mpr hv) with rfl | hvr
        · exact le_refl _
        · exact List.rel_of_sorted_cons hsorted v hvr
      have h2 : v ≤ h0 := hall h0 h0mem
      simp [le_antisymm h1 h2]

/-- C6 (amended): the value the description synthesizer selects — the head
of `series_mode`, used for both the origin and the primary material — is
the most frequent non-null value of the column, with ties among equally
frequent values broken by ascending lexical order (pandas returns the
modes sorted), not by first-encountered order. -/
theorem series_mode_head_iff (col : List (Option String)) (v : String) :
    (series_mode col).head? = some v ↔
      (v ∈ col.filterMap id ∧
        (∀ w ∈ col.filterMap id,
          (col.filterMap id).count w ≤ (col.filterMap id).count v) ∧
        (∀ w ∈ col.filterMap id,
          (col.filterMap id).count w = (col.filterMap id).count v →
            v ≤ w)) := by
  unfold series_mode
  set vals := col.filterMap id with hvals
  set distinct := pdUnique vals with hdist
  set maxc := (distinct.map fun x => vals.count x).foldr max 0 with hmaxc
  have hF2 : ∀ x ∈ vals, vals.count x ≤ maxc := by
    intro x hx
    apply le_foldr_max
    exact List.mem_map_of_mem _ ((mem_pdUnique x vals).mpr hx)
  have hF3 : vals ≠ [] → ∃ x, x ∈ vals ∧ vals.count x = maxc := by
    intro hne
    have hd : distinct ≠ [] := by
      rw [hdist, Ne, pdUnique_eq_nil]
      exact hne
    have hmem : maxc ∈ distinct.map fun x => vals.count x := by
      rw [hmaxc]
      exact foldr_max_mem _ (by simpa using hd)
    rcases List.mem_map.mp hmem with ⟨x, hx, hcx⟩
    exact ⟨x, (mem_pdUnique x vals).mp hx, hcx⟩
  rw [head_insertionSort_le]
  constructor
  · rintro ⟨hvc, hmin⟩
    have hvd : v ∈ distinct ∧ vals.count v = maxc := by
      simpa [List.mem_filter] using hvc
    refine ⟨(mem_pdUnique v vals).mp hvd.1, ?_, ?_⟩
    · intro w hw
      rw [hvd.2]
      exact hF2 w hw
    · intro w hw hcw
      apply hmin
      simp only [List.mem_filter, decide_eq_true_eq]
      exact ⟨(mem_pdUnique w vals).mpr hw, by rw [hcw, hvd.2]⟩
  · rintro ⟨hv, hmax, hmin⟩
    have hvne : vals ≠ [] := List.ne_nil_of_mem hv
    rcases hF3 hvne with ⟨x, hxv, hxc⟩
    have hcv : vals.count v = maxc :=
      le_antisymm (hF2 v hv) (hxc ▸ hmax x hxv)
    constructor
    · simp only [List.mem_filter, decide_eq_true_eq]
      exact ⟨(mem_pdUnique v vals).mpr hv, hcv⟩
    · intro w hw
      have hwd : w ∈ distinct ∧ vals.count w = maxc := by
        simpa [List.mem_filter] using hw
      exact hmin w ((mem_pdUnique w vals).mp hwd.1) (by rw [hwd.2, hcv])

/-! ### Support lemmas: the counter walk of the unit assigner -/

theorem assign_codes_mem : ∀ (ks : List String) (ctr : String → ℕ)
    (p : String × String), p ∈ assign_codes ks ctr →
    ∃ n, ctr (key_origin p.1) < n ∧
      p.2 = origin_pfx (key_origin p.1) ++ natStr n := by
  intro ks
  induction ks with
  | nil =>
    intro ctr p hp
    cases hp
  | cons k ks ih =>
    intro ctr p hp
    rw [assign_codes] at hp
    rcases List.mem_cons.mp hp with rfl | hp2
    · exact ⟨ctr (key_origin k) + 1, Nat.lt_succ_self _, rfl⟩
    · rcases ih _ p hp2 with ⟨n, hn, he⟩
      refine ⟨n, lt_of_le_of_lt ?_ hn, he⟩
      by_cases h : key_origin p.1 = key_origin k
      · rw [h]
        simp
      · simp [h]

theorem assign_codes_lookup : ∀ (ks : List String) (ctr : String → ℕ)
    (k : String), k ∈ ks → ∃ n, 0 < n ∧
      (assign_codes ks ctr).lookup k
        = some (origin_pfx (key_origin k) ++ natStr n) := by
  intro ks
  induction ks with
  | nil =>
    intro ctr k hk
    cases hk
  | cons k0 ks ih =>
    intro ctr k hk
    rw [assign_codes]
    by_cases hek : k = k0
    · subst hek
      refine ⟨ctr (key_origin k) + 1, Nat.succ_pos _, ?_⟩
      simp [List.lookup]
    · rcases ih (fun x => if x = key_origin k0 then ctr (key_origin k0) + 1
          else ctr x) k ((List.mem_cons.mp hk).resolve_left hek) with
        ⟨n, hn, he⟩
      refine ⟨n, hn, ?_⟩
      rw [List.lookup]
      have hb : (k == k0) = false := beq_eq_false_iff_ne.mpr hek
      simp only [hb]
      exact he

theorem assign_codes_pairwise : ∀ (ks : List String) (ctr : String → ℕ),
    List.Pairwise (fun p q => key_origin p.1 = key_origin q.1 → p.2 ≠ q.2)
      (assign_codes ks ctr) := by
  intro ks
  induction ks with
  | nil =>
    intro ctr
    exact List.Pairwise.nil
  | cons k ks ih =>
    intro ctr
    rw [assign_codes]
    refine List.Pairwise.cons ?_ (ih _)
    intro q hq heq hcontra
    rcases assign_codes_mem ks _ q hq with ⟨n, hn, he⟩
    rw [← heq] at hn he
    simp at hn
    rw [he] at hcontra
    have hinj := natStr_injective (string_append_right_inj _ _ _ hcontra)
    omega

/-! ### Support lemmas: extent spreads and key segments -/

theorem extent_top_var_eq_spec (u : List Layer) :
    extent_top_var u = top_spread_spec u := by
  have hp : (extent_tops u).Perm
      ((pdUnique (u.map (·.point_id))).map fun bh =>
        qmin ((u.filter fun l => l.point_id = bh).map (·.top))) := by
    unfold extent_tops extent_bhs
    exact (List.perm_insertionSort _ _).map _
  unfold extent_top_var top_spread_spec
  rw [qmax_perm hp, qmin_perm hp]

theorem extent_base_var_eq_spec (u : List Layer) :
    extent_base_var u = base_spread_spec u := by
  have hp : (extent_bases u).Perm
      ((pdUnique (u.map (·.point_id))).map fun bh =>
        qmax ((u.filter fun l => l.point_id = bh).map (·.base))) := by
    unfold extent_bases extent_bhs
    exact (List.perm_insertionSort _ _).map _
  unfold extent_base_var base_spread_spec
  rw [qmax_perm hp, qmin_perm hp]

theorem string_data_append (s t : String) :
    (s ++ t).data = s.data ++ t.data := by
  cases s
  cases t
  rfl

theorem key_origin_append (o g : String) (ho : ∀ c ∈ o.data, c ≠ '_') :
    key_origin (o ++ "_" ++ g) = o := by
  unfold key_origin
  have hdata : (o ++ "_" ++ g).data = o.data ++ ('_' :: g.data) := by
    rw [string_data_append, string_data_append, List.append_assoc]
    rfl
  rw [hdata, List.takeWhile_append_of_pos (by
    intro a ha
    simpa using ho a ha)]
  rw [List.takeWhile_cons_of_neg (by simp)]
  exact String.ext (by simp)

theorem origin_pfx_eq_letter_spec (o : String) :
    origin_pfx o = origin_letter_spec (some o) := by
  by_cases h1 : o = "Fill"
  · subst h1; rfl
  by_cases h2 : o = "Residual"
  · subst h2; rfl
  by_cases h3 : o = "Alluvium"
  · subst h3; rfl
  by_cases h4 : o = "Colluvium"
  · subst h4; rfl
  rw [origin_pfx, if_neg h1, if_neg h2, if_neg h3, if_neg h4,
    origin_letter_spec]
  simp only [Option.getD_some]

/-! ### Support lemmas: membership of keys, plasticity columns -/

theorem group_key_mem_sorted (rows : List Layer) (l : Layer)
    (hl : l ∈ rows) : group_key l ∈ sorted_group_keys rows := by
  unfold sorted_group_keys
  rw [(List.perm_insertionSort _ _).mem_iff,
    (List.perm_insertionSort _ _).mem_iff, mem_pdUnique]
  exact List.mem_map_of_mem _ hl

theorem first_val_min_none_iff (df : DF) :
    first_val df.hasPlasticityMin (df.rows.map (·.plasticityMin)) = none ↔
      plasticity_min_vals df = [] := by
  rw [first_val, plasticity_min_vals]
  by_cases hp : df.hasPlasticityMin
  · rw [if_pos hp, if_pos hp, List.head?_eq_none_iff, pdUnique_eq_nil]
    simp
  · simp [hp]

theorem append_plasticity_ne_empty (s : String) :
    s ++ " plasticity" ≠ "" := by
  intro h
  have hlen := congrArg String.length h
  rw [String.length_append] at hlen
  have h1 : (" plasticity" : String).length = 11 := rfl
  have h2 : ("" : String).length = 0 := rfl
  rw [h1, h2] at hlen
  omega

/-! ### Claim theorems -/

/-- C3: `classify_soil_group` is a total deterministic function agreeing
with the spec's fixed table on every input: a null code yields `Unknown`;
a code whose trimmed form is in the table yields the documented group
label; any other non-null code yields its trimmed form unchanged. -/
theorem classify_soil_group_matches_spec :
    ∀ code : Option String, classify_soil_group code = group_spec code := by
  intro code
  cases code with
  | none => rfl
  | some s =>
    unfold classify_soil_group group_spec
    exact classify_chain_eq_table (stripStr s)

/-- C10: `classify_soil_group` is idempotent — every group label, the
`Unknown` default and every passed-through trimmed code is a fixed point,
so applying the function to its own output returns that output. -/
theorem classify_soil_group_idempotent :
    ∀ code : Option String,
      classify_soil_group (some (classify_soil_group code))
        = classify_soil_group code := by
  intro code
  cases code with
  | none => decide
  | some s =>
    rcases classify_cases s with h | ⟨h, h1, h2, h3, h4, h5, h6⟩
    · simp only [List.mem_cons, List.not_mem_nil, or_false] at h
      rcases h with h | h | h | h | h | h <;> rw [h] <;> decide
    · rw [h]
      exact classify_passthrough (stripStr s) (stripStr_idem s)
        h1 h2 h3 h4 h5 h6

/-- C9: an empty layer collection never raises: the summary table is the
empty row sequence and both text synthesizers return the empty string,
whatever optional columns are present. -/
theorem empty_input_yields_empty :
    ∀ b1 b2 b3 b4 b5 b6 : Bool,
      create_subsurface_summary_table ⟨[], b1, b2, b3, b4, b5, b6⟩ = [] ∧
      generate_unit_description ⟨[], b1, b2, b3, b4, b5, b6⟩ = "" ∧
      generate_extent_statement [] = "" := by
  intro b1 b2 b3 b4 b5 b6
  exact ⟨rfl, rfl, rfl⟩

/-- C4: the rows of `create_subsurface_summary_table` are ordered ascending
by each unit's minimum average depth: for any two adjacent rows the first
unit's minimum `AvgDepth` is at most the second's. -/
theorem summary_rows_sorted_by_min_avg_depth (df : DF) :
    List.Chain' (fun r1 r2 =>
      min_avg_depth (assign_geological_units df.rows) r1.1 ≤
        min_avg_depth (assign_geological_units df.rows) r2.1)
      (create_subsurface_summary_table df) := by
  unfold create_subsurface_summary_table
  rw [List.chain'_map]
  haveI ht : IsTotal String (fun a b =>
      min_avg_depth (assign_geological_units df.rows) a ≤
        min_avg_depth (assign_geological_units df.rows) b) :=
    ⟨fun a b => le_total _ _⟩
  haveI htr : IsTrans String (fun a b =>
      min_avg_depth (assign_geological_units df.rows) a ≤
        min_avg_depth (assign_geological_units df.rows) b) :=
    ⟨fun _ _ _ hab hbc => le_trans hab hbc⟩
  exact (List.sorted_insertionSort _ _).chain'

/-- C5 (amended): the distinct `GroupKey`s are assigned in ascending order
of mean `AvgDepth`, and two keys with equal means are ordered lexically by
the full `GroupKey` string — `groupby(sort=True)` pre-sorts the keys and
the (modelled stable) value sort preserves that order on ties; the
first-discovery order of the claim is not preserved. -/
theorem group_key_order_lex_on_ties (rows : List Layer) :
    List.Pairwise (fun k1 k2 =>
      key_mean rows k1 < key_mean rows k2 ∨
        (key_mean rows k1 = key_mean rows k2 ∧ k1 ≤ k2))
      (sorted_group_keys rows) := by
  unfold sorted_group_keys
  exact pairwise_insertionSort_lex (key_mean rows) _
    (List.sorted_insertionSort _ _)

/-- C5 counterexample: on `exRowsC5` the keys tie on mean depth
(`Fill_Sand_Group` discovered first, `Fill_CH_Group` lexically smaller);
the claimed stable-by-first-discovery order and the implemented order
disagree. -/
theorem sorted_group_keys_first_seen_cex :
    pdUnique (exRowsC5.map group_key)
        = ["Fill_Sand_Group", "Fill_CH_Group"] ∧
      key_mean exRowsC5 "Fill_Sand_Group"
        = key_mean exRowsC5 "Fill_CH_Group" ∧
      sorted_group_keys_first_seen exRowsC5
        = ["Fill_Sand_Group", "Fill_CH_Group"] ∧
      sorted_group_keys exRowsC5
        = ["Fill_CH_Group", "Fill_Sand_Group"] := by
  refine ⟨by decide, by with_unfolding_all decide,
    by with_unfolding_all decide, by with_unfolding_all decide⟩

/-- C2: for non-empty unit layers, `generate_extent_statement` takes the
uniform branch exactly when `top_spread < 0.2` and `base_spread < 0.3`
(strict inequalities), with the spreads computed per the spec from the
per-borehole minimum tops and maximum bases. -/
theorem extent_uniform_iff_spread :
    ∀ u : List Layer, u ≠ [] →
      (generate_extent_statement u
          = if extent_uniform u then extent_uniform_text u
            else extent_variable_text u) ∧
      (extent_uniform u = true ↔
        (top_spread_spec u < 1/5 ∧ base_spread_spec u < 3/10)) := by
  intro u hu
  constructor
  · rw [generate_extent_statement,
      if_neg (by simpa [List.isEmpty_iff] using hu)]
  · rw [extent_uniform, decide_eq_true_iff,
      extent_top_var_eq_spec, extent_base_var_eq_spec]

/-- Witness for C2: the two-borehole unit `exRowsC2` (top spread `1`). -/
theorem extent_uniform_iff_spread_witness :
    (generate_extent_statement exRowsC2
        = if extent_uniform exRowsC2 then extent_uniform_text exRowsC2
          else extent_variable_text exRowsC2) ∧
      (extent_uniform exRowsC2 = true ↔
        (top_spread_spec exRowsC2 < 1/5 ∧
          base_spread_spec exRowsC2 < 3/10)) :=
  extent_uniform_iff_spread exRowsC2 (by simp [exRowsC2])

/-- C6 counterexample: a frequency tie among origins is broken lexically
(pandas sorts the modes), not by first-encountered order: with `Zeta`
first-encountered and `Alpha` lexically smaller, the claim picks `Zeta`
but the code picks `Alpha`. -/
theorem series_mode_tie_cex :
    mode_first_seen exColC6 = some "Zeta" ∧
      (series_mode exColC6).head? = some "Alpha" ∧
      generate_unit_description exDFC6 = "ALPHA ‚Äì SOIL" := by
  refine ⟨by decide, by with_unfolding_all decide,
    by with_unfolding_all decide⟩

/-- C7 counterexample: with no non-null `PlasticityMin` but a `to` joiner
and a maximum present, the descriptor is `"to high plasticity"`, not the
empty string the claim requires. -/
theorem plasticity_joiner_only_cex :
    plasticity_min_vals exDFC7 = [] ∧
      plasticity_descriptor exDFC7 = "to high plasticity" := by
  refine ⟨by decide, by decide⟩

/-- C7 (amended): the plasticity descriptor is empty exactly when no part
was collected — no non-null minimum value exists AND the first non-null
joiner value is not the literal `to`; whenever parts were collected they
are joined with single spaces and suffixed with ` plasticity`. -/
theorem plasticity_descriptor_empty_iff :
    ∀ df : DF,
      (plasticity_descriptor df = "" ↔ plasticity_parts df = []) ∧
      (plasticity_parts df = [] ↔
        (plasticity_min_vals df = [] ∧
          first_val df.hasPlasticityJoiner (df.rows.map (·.plasticityJoiner))
            ≠ some "to")) ∧
      (plasticity_parts df ≠ [] →
        plasticity_descriptor df
          = sjoin " " (plasticity_parts df) ++ " plasticity") := by
  intro df
  refine ⟨?_, ?_, ?_⟩
  · constructor
    · intro h
      by_contra hne
      rw [plasticity_descriptor, if_neg hne] at h
      exact append_plasticity_ne_empty _ h
    · intro h
      rw [plasticity_descriptor, if_pos h]
  · rw [← first_val_min_none_iff]
    rcases hmin : first_val df.hasPlasticityMin
        (df.rows.map (·.plasticityMin)) with _ | v <;>
      rcases hjoin : first_val df.hasPlasticityJoiner
        (df.rows.map (·.plasticityJoiner)) with _ | j <;>
      rcases hmax : first_val df.hasPlasticityMax
        (df.rows.map (·.plasticityMax)) with _ | m <;>
      simp only [plasticity_parts, hmin, hjoin, hmax] <;>
      simp
  · intro hne
    rw [plasticity_descriptor, if_neg hne]

/-- Witness for C7 (amended) at the joiner-only dataframe `exDFC7`. -/
theorem plasticity_descriptor_empty_iff_witness :
    (plasticity_descriptor exDFC7 = "" ↔ plasticity_parts exDFC7 = []) ∧
      (plasticity_parts exDFC7 = [] ↔
        (plasticity_min_vals exDFC7 = [] ∧
          first_val exDFC7.hasPlasticityJoiner
              (exDFC7.rows.map (·.plasticityJoiner)) ≠ some "to")) ∧
      (plasticity_parts exDFC7 ≠ [] →
        plasticity_descriptor exDFC7
          = sjoin " " (plasticity_parts exDFC7) ++ " plasticity") :=
  plasticity_descriptor_empty_iff exDFC7

/-- C8 counterexample: a layer with origin `Fill_Old` receives the code
`F1` (the code reads only the text before the first underscore), while the
claim's mapping sends the origin `Fill_Old` to `U`. -/
theorem origin_underscore_cex :
    (unit_assignments exRowsC8).lookup
        (group_key (mkLayer "BH01" 0 2 (some "CH") (some "Fill_Old")))
        = some "F1" ∧
      origin_letter_spec (some "Fill_Old") = "U" := by
  refine ⟨by with_unfolding_all decide, by decide⟩

/-- C8 (amended): for every layer whose (defaulted) origin contains no
underscore, the assigned unit code is the claimed letter for that origin
(Fill→F, Residual→R, Alluvium→AL, Colluvium→CO, else U, missing origin
defaulting to `Unknown`) followed by a positive counter; the code derives
the letter from the key's first underscore-separated segment. -/
theorem unit_code_letter_from_first_segment (rows : List Layer) (l : Layer)
    (hl : l ∈ rows)
    (ho : ∀ c ∈ (l.origin1.getD "Unknown").data, c ≠ '_') :
    ∃ n, 0 < n ∧
      (unit_assignments rows).lookup (group_key l)
        = some (origin_letter_spec l.origin1 ++ natStr n) := by
  rcases assign_codes_lookup _ (fun _ => 0) _
    (group_key_mem_sorted rows l hl) with ⟨n, hn, he⟩
  refine ⟨n, hn, ?_⟩
  have hseg : key_origin (group_key l) = l.origin1.getD "Unknown" := by
    rw [group_key]
    exact key_origin_append _ _ ho
  rw [unit_assignments, he, hseg, origin_pfx_eq_letter_spec]
  cases l.origin1 <;> rfl

/-- Witness for C8 (amended) at a `Fill`-origin layer of `exRowsC2`. -/
theorem unit_code_letter_from_first_segment_witness :
    ∃ n, 0 < n ∧
      (unit_assignments exRowsC2).lookup
          (group_key (mkLayer "BH01" 0 2 (some "CH") (some "Fill")))
        = some (origin_letter_spec (some "Fill") ++ natStr n) :=
  unit_code_letter_from_first_segment exRowsC2
    (mkLayer "BH01" 0 2 (some "CH") (some "Fill"))
    (by unfold exRowsC2; exact List.mem_cons_self _ _)
    (by decide)

/-- C1 counterexample: the counters are keyed by the origin segment, not
the prefix, so the two distinct keys of `exRowsC1` (origins `Marine` and
`Topsoil`, both falling to `U`) receive the same code `U1` — unit codes
are not globally unique. -/
theorem unit_codes_duplicate_cex :
    unit_assignments exRowsC1
        = [("Marine_CH_Group", "U1"), ("Topsoil_CH_Group", "U1")] ∧
      ¬ List.Nodup ((unit_assignments exRowsC1).map Prod.snd) := by
  refine ⟨by with_unfolding_all decide, by with_unfolding_all decide⟩

/-- C1 (amended): every code produced by `assign_geological_units` matches
`<letter><positive integer>` with the letter drawn from {F, R, AL, CO, U};
the sequence number comes from a per-origin-segment counter starting at 0
and incremented before use, so codes assigned to distinct group keys
sharing an origin segment are distinct (global uniqueness can fail only
when two distinct origins share the `U` letter). -/
theorem unit_codes_pattern_and_origin_unique (rows : List Layer) :
    (∀ p ∈ assign_geological_units rows,
      ∃ q n, q ∈ (["F", "R", "AL", "CO", "U"] : List String) ∧ 0 < n ∧
        p.2 = q ++ natStr n) ∧
    List.Pairwise (fun p q => key_origin p.1 = key_origin q.1 → p.2 ≠ q.2)
      (unit_assignments rows) := by
  constructor
  · rintro p hp
    rw [assign_geological_units] at hp
    rcases List.mem_map.mp hp with ⟨l, hl, rfl⟩
    rcases assign_codes_lookup _ (fun _ => 0) _
      (group_key_mem_sorted rows l hl) with ⟨n, hn, he⟩
    refine ⟨origin_pfx (key_origin (group_key l)), n, ?_, hn, ?_⟩
    · rw [origin_pfx]
      split_ifs <;> simp
    · show ((unit_assignments rows).lookup (group_key l)).getD "" = _
      rw [unit_assignments, he]
      rfl
  · exact assign_codes_pairwise _ _

/-- Witness for C1 (amended): the `Marine`-origin row of `exRowsC1` gets
the code `U1 = "U" ++ natStr 1`. -/
theorem unit_codes_pattern_and_origin_unique_witness :
    ∃ q n, q ∈ (["F", "R", "AL", "CO", "U"] : List String) ∧ 0 < n ∧
      ((mkLayer "BH01" 0 2 (some "CH") (some "Marine"), ("U1" : String))).2
        = q ++ natStr n := by
  have h := (unit_codes_pattern_and_origin_unique exRowsC1).1
    (mkLayer "BH01" 0 2 (some "CH") (some "Marine"), "U1")
    (by with_unfolding_all decide)
  exact h
